import Mathlib

/-!
Verification of the power-estimation core (`ch2/data/power.py`) of the
choochoo repository, as a shallow embedding in Lean 4.

Modelling conventions
* A pandas cell is `Option ℚ`: `none` models a missing value (NaN/NaT);
  float arithmetic is modelled over `ℚ` and propagates `none` the way
  numpy arithmetic propagates NaN.
* A row is an association list from column names to cells; a data frame
  (`DTable`) is a frame-level list of column names plus the list of rows.
  Column assignment `df[c] = ...` replaces the (first) binding of `c`
  in every row, appending the column when it is absent, exactly as a
  pandas assignment adds or overwrites one column.
* Timedelta columns are modelled as their value in seconds (the source
  converts with `.dt.total_seconds()` where it divides by them).
* Transcendental functions from numpy (`cos`, `arctan2` scaled to
  degrees, the exponential-weight smoother `ewm(...).mean()`) have no
  rational values; they are taken as explicit function parameters of the
  embedded operations, so every definition stays executable.
* The time index of a frame is strictly increasing in the data model, so
  a delta-time is positive or missing; division by an (impossible) zero
  divisor is modelled as a missing result.
-/

namespace Choochoo

/- Rational arithmetic is `@[irreducible]` upstream; re-enable kernel
evaluation so concrete instances of the definitions below can be checked
by `decide`. -/
attribute [local semireducible] Rat.mul Rat.sub Rat.add Rat.inv

/-- A pandas cell: `none` is NaN (missing). -/
abbrev Cell := Option ℚ

/-- A row: association list from column name to cell. -/
abbrev Row := List (String × Cell)

/-- Read a column of a row (first binding wins, as pandas columns are
unique).  Reading a column absent from the frame is a pandas `KeyError`;
this embedding returns missing instead, so a lookup is meaningful only
for columns the frame carries — the data model guarantees every column
an operation reads is present, and every concrete table a theorem below
is instantiated at carries all the columns the traced code reads. -/
def getCol : Row → String → Cell
  | [], _ => none
  | p :: ps, c => if p.1 = c then p.2 else getCol ps c

/-- Set a column of a row: replace the first binding, or append the column
when absent — the semantics of a pandas column assignment restricted to
one row. -/
def setCol : Row → String → Cell → Row
  | [], c, v => [(c, v)]
  | p :: ps, c, v => if p.1 = c then (c, v) :: ps else p :: setCol ps c v

/-- Does the row carry a binding for column `c`? -/
def hasKey (r : Row) (c : String) : Bool := r.any (fun p => p.1 = c)

/-- Remove the listed columns from a row (`DataFrame.drop(columns=...)`,
restricted to one row). -/
def dropCols (r : Row) (cs : List String) : Row :=
  r.filter (fun p => decide (p.1 ∉ cs))

/-- Binary arithmetic on cells: NaN-propagating, as in numpy. -/
def opt2 (f : ℚ → ℚ → ℚ) : Cell → Cell → Cell
  | some a, some b => some (f a b)
  | _, _ => none

def optAdd : Cell → Cell → Cell := opt2 (· + ·)
def optSub : Cell → Cell → Cell := opt2 (· - ·)
def optMul : Cell → Cell → Cell := opt2 (· * ·)

/-- Division of cells.  The divisor is a delta-time, positive or missing
under the strictly-increasing-index data model; a zero divisor cannot
arise and is modelled as a missing result (as `0/0 = NaN` is). -/
def optDiv : Cell → Cell → Cell
  | some a, some b => if b = 0 then none else some (a / b)
  | _, _ => none

/-- Squaring a cell (`series ** 2`). -/
def optSq : Cell → Cell := Option.map (fun x => x ^ 2)

/-- A data frame: frame-level column list plus rows. -/
structure DTable where
  cols : List String
  rows : List Row
deriving DecidableEq

/-- Add a column name to the frame-level column list if it is new. -/
def addColName (cols : List String) (c : String) : List String :=
  if c ∈ cols then cols else cols ++ [c]

/-- `df[c] = f(row)` — assign a column computed row-wise. -/
def setColumn (t : DTable) (c : String) (f : Row → Cell) : DTable :=
  ⟨addColName t.cols c, t.rows.map (fun r => setCol r c (f r))⟩

/-- Transform one column in place (`df[c] = g(df[c])`). -/
def mapColumn (t : DTable) (c : String) (g : Cell → Cell) : DTable :=
  ⟨addColName t.cols c, t.rows.map (fun r => setCol r c (g (getCol r c)))⟩

/-- Assign a column from a positionally aligned list of values; rows beyond
the value list are left unchanged (pandas aligns equal lengths). -/
def setColZip (c : String) : List Row → List Cell → List Row
  | [], _ => []
  | r :: rs, [] => r :: rs
  | r :: rs, v :: vs => setCol r c v :: setColZip c rs vs

/-! Column names from `ch2.stoats.names` (the names module is not part of
the sources under review; the concrete strings are immaterial, only their
distinctness matters, and the mangling helpers `_d`, `_sqr`, `_avg` are
modelled as prefix/suffix marks with pairwise distinct leading characters). -/

def _d (s : String) : String := "delta " ++ s
def _sqr (s : String) : String := s ++ "2"
def _avg (s : String) : String := "avg " ++ s

def TIMESPAN_ID : String := "timespan id"
def TIME : String := "time"
def DELTA_TIME : String := "delta time"
def SPEED : String := "speed"
def DISTANCE : String := "distance"
def ELEVATION : String := "elevation"
def LATITUDE : String := "latitude"
def LONGITUDE : String := "longitude"
def HEADING : String := "heading"
def CADENCE : String := "cadence"
def HEART_RATE : String := "heart rate"
def AIR_SPEED : String := "air speed"
def ENERGY : String := "energy"
def LOSS : String := "loss"
def CDA : String := "cda"
def CRR : String := "crr"
def DELAYED_POWER : String := "delayed power"
def DETRENDED_HEART_RATE : String := "detrended heart rate"
def PREDICTED_HEART_RATE : String := "predicted heart rate"
def POWER : String := "power"

def SPEED_2 : String := _sqr SPEED
def DELTA_SPEED_2 : String := _d (_sqr SPEED)
def DELTA_ELEVATION : String := _d ELEVATION
def DELTA_DISTANCE : String := _d DISTANCE
def DELTA_ENERGY : String := _d ENERGY
def AVG_AIR_SPEED_2 : String := _avg (_sqr AIR_SPEED)

/-- The domain-specific failure of the module (`class PowerException`). -/
structure PowerException where
  msg : String
deriving DecidableEq

/-- The immutable parameter bundle (`PowerModel` namedtuple). -/
structure PowerModel where
  cda : ℚ
  crr : ℚ
  slope : ℚ
  intercept : ℚ
  window : ℚ
  delay : ℚ
  m : ℚ
  wind_speed : ℚ
  wind_heading : ℚ
deriving DecidableEq

/-- The namedtuple defaults. -/
def powerModelDefault : PowerModel :=
  ⟨0, 0, 0, 0, 60 * 60, 40, 70, 0, 0⟩

/-- `MIN_DELAY = 1` (source line 153). -/
def MIN_DELAY : ℚ := 1

/-- `fit_power.forwards` (source lines 168-171) acting on the `delay`
entry of the keyword dictionary: `none` models a dictionary without the
`delay` key, which the transform leaves untouched. -/
def forwards (delay : Option ℚ) : Option ℚ :=
  delay.map (fun d => d - MIN_DELAY)

/-- `fit_power.backwards` (source lines 173-176): external delay is
`abs(internal) + MIN_DELAY`. -/
def backwards (delay : Option ℚ) : Option ℚ :=
  delay.map (fun d => |d| + MIN_DELAY)

/-- Python float `%` for a positive divisor: `x - y * floor(x / y)`. -/
def pymod (x y : ℚ) : ℚ := x - y * (⌊x / y⌋ : ℤ)

/-- The wind normalization at the end of `fit_power` (source lines
187-189), applied to whatever parameter set the external fitting
primitive returned: a negative wind speed is negated with the heading
rotated by 180 degrees, and the heading is finally reduced modulo 360. -/
def fit_power_wind_fix (model : PowerModel) : PowerModel :=
  let m1 := if model.wind_speed < 0 then
      { model with wind_speed := |model.wind_speed|,
                   wind_heading := model.wind_heading + 180 }
    else model
  { m1 with wind_heading := pymod m1.wind_heading 360 }

/-- The exact time-integral mean of the square of a speed varying
linearly from `a` to `b`, as computed at source line 63:
`(a**2 + a*b + b**2)/3`. -/
def avgSpeed2 (a b : ℚ) : ℚ := (a ^ 2 + a * b + b ^ 2) / 3

/-! ## The differentiator `_add_differentials` (source lines 50-72)

`df.groupby(TIMESPAN_ID)` groups rows by the value of the timespan
column.  Under the data model the timespan identifiers partition the
frame into contiguous runs appearing in increasing order, so grouping by
value coincides with grouping maximal runs of equal identifier, which is
what `groupRuns` computes; rows whose identifier is missing belong to no
group (pandas drops NaN keys), and the realignment performed by the
final index `join` is modelled by merging each run with its own new
columns in place. -/

/-- The timespan key of a run (the key of its first row). -/
def keyOf : List Row → Cell
  | [] => none
  | r :: _ => getCol r TIMESPAN_ID

/-- Split rows into maximal runs of equal timespan identifier. -/
def groupRuns : List Row → List (List Row)
  | [] => []
  | r :: rest =>
    match groupRuns rest with
    | [] => [[r]]
    | run :: runs =>
      if keyOf run = getCol r TIMESPAN_ID then (r :: run) :: runs
      else [r] :: run :: runs

/-- Source line 57: a span is usable when every required column is free
of missing values throughout the span. -/
def segmentOk (names : List String) (run : List Row) : Bool :=
  names.all (fun c => run.all (fun r => (getCol r c).isSome))

/-- Cell of column `c` at position `i` of a run (missing outside). -/
def getAt (run : List Row) (i : ℕ) (c : String) : Cell :=
  match run[i]? with
  | some r => getCol r c
  | none => none

/-- `old_span[col].diff()` at position `i`: missing at the first row,
else the difference with the previous row of the same span. -/
def diffAt (run : List Row) (c : String) (i : ℕ) : Cell :=
  if i = 0 then none else optSub (getAt run i c) (getAt run (i - 1) c)

/-- `[np.nan] + [(a**2 + a*b + b**2)/3 for a, b in zip(speed, speed[1:])]`
at position `i` (source lines 63-64). -/
def avgAt (run : List Row) (speed : String) (i : ℕ) : Cell :=
  if i = 0 then none
  else opt2 avgSpeed2 (getAt run (i - 1) speed) (getAt run i speed)

/-- The columns of the `new_span` frames, in creation order (source
lines 58-64): the differences of the required columns, the derived
heading when the frame has no heading column, and the average squared
speed. -/
def extraCols (hasHeading : Bool) (speed : String) (names : List String) : List String :=
  names.map _d ++ (if hasHeading then [] else [HEADING]) ++ [_avg (_sqr speed)]

/-- Row `i` of the `new_span` frame of a usable span.  `atan2` models
`np.arctan2(y, x) * RAD_TO_DEG` (source line 62), which has no rational
values and is a parameter of the embedding. -/
def newRowAt (atan2 : ℚ → ℚ → ℚ) (hasHeading : Bool) (speed : String)
    (names : List String) (run : List Row) (i : ℕ) : Row :=
  names.map (fun c => (_d c, diffAt run c i))
    ++ (if hasHeading then []
        else [(HEADING, opt2 atan2 (diffAt run LONGITUDE i) (diffAt run LATITUDE i))])
    ++ [(_avg (_sqr speed), avgAt run speed i)]

/-- One run of the output of `df.drop(columns=extra.columns,
errors='ignore').join(extra)` (source line 70): rows of a usable span
receive their computed new columns; rows of a skipped span (or of a run
with a missing identifier, which pandas grouped nowhere) receive the new
columns as missing values. -/
def mergeRun (atan2 : ℚ → ℚ → ℚ) (hasHeading : Bool) (speed : String)
    (names : List String) (run : List Row) : List Row :=
  let ec := extraCols hasHeading speed names
  if (keyOf run).isSome ∧ segmentOk names run then
    (List.range run.length).map (fun i =>
      match run[i]? with
      | some r => dropCols r ec ++ newRowAt atan2 hasHeading speed names run i
      | none => [])
  else
    run.map (fun r => dropCols r ec ++ ec.map (fun c => (c, (none : Cell))))

/-- Source lines 52-53: `df[speed_2] = df[speed] ** 2`, the in-place
mutation performed on the caller's frame before anything else. -/
def withSpeed2 (speed : String) (t : DTable) : DTable :=
  setColumn t (_sqr speed) (fun r => optSq (getCol r speed))

/-- What the caller's frame object looks like after a call to
`_add_differentials`, whether it raised or returned: line 53 has added
the squared-speed column in place, and every later step builds new
frames. -/
def _add_differentials_state (speed : String) (t : DTable) : DTable :=
  withSpeed2 speed t

/-- The timespan groups of a frame (pandas `groupby`: runs with a
present identifier). -/
def segmentsOf (t : DTable) : List (List Row) :=
  (groupRuns t.rows).filter (fun run => (keyOf run).isSome)

/-- `_add_differentials(df, speed, *names)` (source lines 50-72). -/
def _add_differentials (atan2 : ℚ → ℚ → ℚ) (speed : String)
    (names : List String) (t : DTable) : Except PowerException DTable :=
  let t1 := withSpeed2 speed t
  let hasHeading := HEADING ∈ t1.cols
  let ec := extraCols hasHeading speed names
  let runs := groupRuns t1.rows
  let okRuns := (runs.filter (fun run => (keyOf run).isSome)).filter (segmentOk names)
  if okRuns.isEmpty then
    .error ⟨"Missing data - found no spans without NANs"⟩
  else
    .ok ⟨t1.cols.filter (fun c => decide (c ∉ ec)) ++ ec,
         (runs.map (mergeRun atan2 hasHeading speed names)).flatten⟩

/-- `add_differentials(df)` (source lines 41-42). -/
def add_differentials (atan2 : ℚ → ℚ → ℚ) (t : DTable) : Except PowerException DTable :=
  _add_differentials atan2 SPEED
    [DISTANCE, ELEVATION, SPEED, SPEED_2, LATITUDE, LONGITUDE] t

/-- Caller-visible state after `add_differentials`. -/
def add_differentials_state (t : DTable) : DTable :=
  _add_differentials_state SPEED t

/-- `add_air_speed(df, wind_speed, wind_heading)` (source lines 45-47).
`cosd` models `np.cos((heading - wind_heading) / RAD_TO_DEG)` as a
function of the angle difference in degrees (the radian conversion uses
the transcendental `pi`). -/
def add_air_speed (cosd : ℚ → ℚ) (atan2 : ℚ → ℚ → ℚ)
    (wind_speed wind_heading : ℚ) (t : DTable) : Except PowerException DTable :=
  _add_differentials atan2 AIR_SPEED []
    (setColumn t AIR_SPEED (fun r =>
      optAdd (getCol r SPEED)
        (optMul (some wind_speed)
          (Option.map cosd (optSub (getCol r HEADING) (some wind_heading))))))

/-- Caller-visible state after `add_air_speed`: the air-speed column was
assigned in place (line 46) and `_add_differentials` then added the
squared air speed in place (line 53). -/
def add_air_speed_state (cosd : ℚ → ℚ) (wind_speed wind_heading : ℚ)
    (t : DTable) : DTable :=
  _add_differentials_state AIR_SPEED
    (setColumn t AIR_SPEED (fun r =>
      optAdd (getCol r SPEED)
        (optMul (some wind_speed)
          (Option.map cosd (optSub (getCol r HEADING) (some wind_heading))))))

/-! ## The energy-budget model (source lines 75-110) -/

/-- `add_energy_budget(df, m, g=9.8)` (source lines 75-79):
`df[DELTA_ENERGY] = m * (df[DELTA_SPEED_2] / 2 + df[DELTA_ELEVATION] * g)`,
assigned in place; the function returns the frame it mutated. -/
def add_energy_budget (m g : ℚ) (t : DTable) : DTable :=
  setColumn t DELTA_ENERGY (fun r =>
    optMul (some m)
      (optAdd (optDiv (getCol r DELTA_SPEED_2) (some 2))
              (optMul (getCol r DELTA_ELEVATION) (some g))))

/-- `add_loss_estimate(df, cda=0.45, crr=0, p=1.225)` (source lines
95-98): `(cda * p * df[AVG_AIR_SPEED_2] * 0.5 + crr) * df[DELTA_DISTANCE]`,
assigned in place. -/
def add_loss_estimate (cda crr p : ℚ) (t : DTable) : DTable :=
  setColumn t LOSS (fun r =>
    optMul
      (optAdd
        (optMul (optMul (optMul (some cda) (some p)) (getCol r AVG_AIR_SPEED_2))
          (some (1 / 2)))
        (some crr))
      (getCol r DELTA_DISTANCE))

/-- The raw power quotient of source line 103:
`(df[DELTA_ENERGY] + df[LOSS]) / df[DELTA_TIME].dt.total_seconds()`. -/
def rawPower (r : Row) : Cell :=
  optDiv (optAdd (getCol r DELTA_ENERGY) (getCol r LOSS)) (getCol r DELTA_TIME)

/-- Row condition of source line 105: the cadence value is present and
below 1 (a NaN cadence compares false in pandas). -/
def cadenceBelow1 (r : Row) : Bool :=
  match getCol r CADENCE with
  | some c => decide (c < 1)
  | none => false

/-- pandas `cumsum` over cells: missing entries stay missing and do not
contribute; later entries keep accumulating. -/
def cumsumCells (acc : ℚ) : List Cell → List Cell
  | [] => []
  | none :: xs => none :: cumsumCells acc xs
  | some v :: xs => some (acc + v) :: cumsumCells (acc + v) xs

/-- Source line 103: assign the raw power quotient. -/
def powerRaw (t : DTable) : DTable := setColumn t POWER rawPower

/-- Source line 104: `df[POWER].clip(lower=0, inplace=True)`. -/
def powerClip (t : DTable) : DTable :=
  mapColumn t POWER (Option.map (fun x => max x 0))

/-- Source line 105: `if CADENCE in df.columns: df.loc[df[CADENCE] < 1, [POWER]] = 0`. -/
def powerCadence (t : DTable) : DTable :=
  if CADENCE ∈ t.cols then
    ⟨t.cols, t.rows.map (fun r => if cadenceBelow1 r then setCol r POWER (some 0) else r)⟩
  else t

/-- Source line 106: `df.loc[df[POWER].isna(), [POWER]] = 0`. -/
def powerFillNa (t : DTable) : DTable :=
  ⟨t.cols, t.rows.map (fun r => if getCol r POWER = none then setCol r POWER (some 0) else r)⟩

/-- Source lines 107-109: the cumulative energy — power times delta-time
summed from the second row, the first row set to zero (the source
indexes the energy assignment positionally). -/
def powerEnergy (t : DTable) : DTable :=
  let energies := cumsumCells 0
    ((t.rows.drop 1).map (fun r => optMul (getCol r POWER) (getCol r DELTA_TIME)))
  ⟨addColName t.cols ENERGY,
    match t.rows with
    | [] => []
    | r0 :: rest => setCol r0 ENERGY (some 0) :: setColZip ENERGY rest energies⟩

/-- `add_power_estimate(df)` (source lines 101-110), all assignments in
place on the caller's frame, in statement order. -/
def add_power_estimate (t : DTable) : DTable :=
  powerEnergy (powerFillNa (powerCadence (powerClip (powerRaw t))))

/-- `evaluate(df, model)` (source lines 144-150): the returned frame. -/
def evaluate (cosd : ℚ → ℚ) (atan2 : ℚ → ℚ → ℚ) (model : PowerModel)
    (t : DTable) : Except PowerException DTable :=
  match add_air_speed cosd atan2 model.wind_speed model.wind_heading
      (add_energy_budget model.m (9.8 : ℚ) t) with
  | .error e => .error e
  | .ok t2 => .ok (add_power_estimate (add_loss_estimate model.cda model.crr (1.225 : ℚ) t2))

/-- Caller-visible state after `evaluate`: the first two stages mutate
the caller's frame in place (delta-energy, air speed, squared air
speed); `add_air_speed` then returns a new joined frame, so the later
stages no longer touch the caller's object. -/
def evaluate_state (cosd : ℚ → ℚ) (model : PowerModel) (t : DTable) : DTable :=
  add_air_speed_state cosd model.wind_speed model.wind_heading
    (add_energy_budget model.m (9.8 : ℚ) t)

/-- The in-place stages return the very frame object they mutated; the
caller-visible state after each call is the returned frame itself. -/
def add_energy_budget_state (m g : ℚ) (t : DTable) : DTable := add_energy_budget m g t

def add_loss_estimate_state (cda crr p : ℚ) (t : DTable) : DTable := add_loss_estimate cda crr p t

def add_power_estimate_state (t : DTable) : DTable := add_power_estimate t

/-! ## The resampler `linear_resample` (source lines 17-38)

A time-indexed frame is a list of (timestamp, row) pairs; under the
data model the timestamps are strictly increasing.  `TTable` rows carry
the data columns; the synthesized `TIME` and `DELTA_TIME` columns are
added by the resampler itself. -/

/-- A time-indexed frame. -/
abbrev TTable := List (ℚ × Row)

/-- Ascending sort (executable; used for the index union and medians). -/
def isort (l : List ℚ) : List ℚ := List.insertionSort (· ≤ ·) l

/-- Median of a list of rationals, pandas style: middle element of the
sorted list, or the mean of the two middle elements; missing for an
empty list. -/
def median (l : List ℚ) : Option ℚ :=
  let s := isort l
  let n := s.length
  if n = 0 then none
  else if n % 2 = 1 then s[n / 2]?
  else match s[n / 2 - 1]?, s[n / 2]? with
    | some a, some b => some ((a + b) / 2)
    | _, _ => none

/-- First differences of a list: `l[i+1] - l[i]`. -/
def pairDiffs (l : List ℚ) : List ℚ :=
  (l.tail.zip l).map (fun p => p.1 - p.2)

/-- `median_dt(stats)` (source lines 17-18): the median spacing of the
time index, in seconds.  A frame with fewer than two rows has no
spacing; pandas would then produce NaN, on which `date_range` fails —
modelled as 0, which generates no ticks. -/
def median_dt (stats : TTable) : ℚ :=
  (median (pairDiffs (stats.map Prod.fst))).getD 0

/-- `pd.date_range(start, end, freq=dt)`: the ticks
`start, start+dt, ...` not exceeding `finish`; empty unless `dt > 0`
and `start ≤ finish`. -/
def date_range (start finish dt : ℚ) : List ℚ :=
  if 0 < dt ∧ start ≤ finish then
    (List.range (1 + (⌊(finish - start) / dt⌋).toNat)).map
      (fun k => start + (k : ℚ) * dt)
  else []

/-- The genuine input row at time `τ`, if one exists (index alignment of
the outer join). -/
def lookupTime (stats : TTable) (τ : ℚ) : Option Row :=
  (stats.find? (fun p => p.1 = τ)).map Prod.snd

/-- The series of column `c` over the joined index `ts`: a genuine
sample's cell where the index point is a genuine sample time, missing on
pure tick rows. -/
def bothSeries (stats : TTable) (c : String) (ts : List ℚ) : List Cell :=
  ts.map (fun τ => match lookupTime stats τ with
    | some r => getCol r c
    | none => none)

/-- The last valid (time, value) pair strictly before position `i`. -/
def prevValid (ts : List ℚ) (vs : List Cell) (i : ℕ) : Option (ℚ × ℚ) :=
  (((ts.zip vs).take i).filterMap (fun p => p.2.map (fun v => (p.1, v)))).getLast?

/-- The first valid (time, value) pair strictly after position `i`. -/
def nextValid (ts : List ℚ) (vs : List Cell) (i : ℕ) : Option (ℚ × ℚ) :=
  (((ts.zip vs).drop (i + 1)).filterMap (fun p => p.2.map (fun v => (p.1, v)))).head?

/-- `Series.interpolate(method='index', limit_area='inside')` at
position `i`: a present value stays; a missing value is filled by
linear interpolation against the index exactly when valid values exist
on both sides.  (The index is deduplicated so bracketing times are
distinct; the guard on equal times keeps the definition total.) -/
def interpSeries (ts : List ℚ) (vs : List Cell) (i : ℕ) : Cell :=
  match vs[i]? with
  | some (some v) => some v
  | some none =>
    match ts[i]?, prevValid ts vs i, nextValid ts vs i with
    | some τ, some pj, some pk =>
      if pk.1 = pj.1 then some pj.2
      else some (pj.2 + (pk.2 - pj.2) * (τ - pj.1) / (pk.1 - pj.1))
    | _, _, _ => none
  | none => none

/-- The uniform ticks of `linear_resample` (source lines 23-26): the
explicit or median step, the explicit or extremal bounds, then
`pd.date_range`. -/
def resampleTicks (stats : TTable) (start? finish? dt? : Option ℚ) : List ℚ :=
  let dt := dt?.getD (median_dt stats)
  let times := stats.map Prod.fst
  let start := start?.getD (((isort times).head?).getD 0)
  let finish := finish?.getD (((isort times).getLast?).getD 0)
  date_range start finish dt

/-- The index of the outer join `stats.join(even, how='outer', sort=True)`
(source line 27): the sorted union of genuine times and ticks. -/
def resampleIndex (stats : TTable) (start? finish? dt? : Option ℚ) : List ℚ :=
  isort ((stats.map Prod.fst) ++ resampleTicks stats start? finish? dt?).dedup

/-- Source lines 27-30: interpolate every column inside the span of its
valid values over the joined index and keep the tick rows. -/
def resampleBase (stats : TTable) (statCols : List String)
    (start? finish? dt? : Option ℚ) : TTable :=
  let ticks := resampleTicks stats start? finish? dt?
  let ts := resampleIndex stats start? finish? dt?
  (List.range ts.length).filterMap (fun i =>
    match ts[i]? with
    | some τ =>
      if τ ∈ ticks then
        some (τ, statCols.map (fun c => (c, interpSeries ts (bothSeries stats c ts) i)))
      else none
    | none => none)

/-- Source lines 31-32: the synthesized `TIME` column repeats the index
and `DELTA_TIME` is its first difference. -/
def addTimeCols (rs : TTable) : TTable :=
  let rs1 := rs.map (fun p => (p.1, setCol p.2 TIME (some p.1)))
  let deltas : List Cell := none :: (pairDiffs (rs1.map Prod.fst)).map some
  (rs1.zip deltas).map (fun p => (p.1.1, setCol p.1.2 DELTA_TIME p.2))

/-- Source lines 33-37: when a timespan column is tracked, tick rows
whose interpolated identifier is not an original identifier are either
voided (all cells set missing) or dropped. -/
def timespanFilter (stats : TTable) (wt keep_nan : Bool) (rs : TTable) : TTable :=
  if wt then
    let ids := stats.map (fun p => getCol p.2 TIMESPAN_ID)
    if keep_nan then
      rs.map (fun p => if getCol p.2 TIMESPAN_ID ∈ ids then p
        else (p.1, p.2.map (fun q => (q.1, (none : Cell)))))
    else rs.filter (fun p => decide (getCol p.2 TIMESPAN_ID ∈ ids))
  else rs

/-- `linear_resample(stats, start, finish, dt, with_timestamp, keep_nan)`
(source lines 21-38).  `statCols` is the frame-level column list of
`stats`. -/
def linear_resample (stats : TTable) (statCols : List String)
    (start? finish? dt? : Option ℚ) (with_timestamp? : Option Bool)
    (keep_nan : Bool) : TTable :=
  timespanFilter stats (with_timestamp?.getD (TIMESPAN_ID ∈ statCols)) keep_nan
    (addTimeCols (resampleBase stats statCols start? finish? dt?))

/-! ## The heart-rate response model and the lag/scale estimator
(source lines 113-134) -/

/-- The window slice of a centered rolling aggregation of width `w` with
`min_periods=1` at position `i` of a series of length `n`: positions
`i - (w - 1 - w / 2)` through `i + w / 2`, shrunk at the edges. -/
def rollingSlice (w i : ℕ) (vs : List Cell) : List Cell :=
  let lo := i - (w - 1 - w / 2)
  (vs.drop lo).take (i + w / 2 + 1 - lo)

/-- `series.rolling(window, center=True, min_periods=1).median()` at
position `i`: the median of the present values of the window. -/
def rollingMedianAt (w i : ℕ) (vs : List Cell) : Cell :=
  match median ((rollingSlice w i vs).filterMap id) with
  | some m => some m
  | none => none

/-- A whole series minus its centered rolling median (the detrending of
source lines 114 and 116). -/
def detrend (w : ℕ) (vs : List Cell) : List Cell :=
  (List.range vs.length).map (fun i =>
    optSub (match vs[i]? with | some v => v | none => none) (rollingMedianAt w i vs))

/-- `add_modeled_hr(df, window, slope, intercept, delay)` (source lines
113-117).  `ewma` models `series.ewm(halflife=delay).mean()`, whose
exponential weights are transcendental; pandas validates
`halflife > 0` and raises `ValueError: halflife must satisfy: halflife > 0`
otherwise, which is the failure modelled here.  The detrended observed
heart rate (line 114) is assigned before the smoother runs. -/
def add_modeled_hr (ewma : ℚ → List Cell → List Cell) (window : ℕ)
    (slope intercept delay : ℚ) (t : DTable) : Except String DTable :=
  let hr := t.rows.map (fun r => getCol r HEART_RATE)
  let t1 : DTable := ⟨addColName t.cols DETRENDED_HEART_RATE,
    setColZip DETRENDED_HEART_RATE t.rows (detrend window hr)⟩
  if 0 < delay then
    let base := t1.rows.map (fun r =>
      optAdd (optMul (getCol r POWER) (some slope)) (some intercept))
    let predicted := ewma delay base
    let predDetrended :=
      (List.range predicted.length).map (fun i =>
        optSub (match predicted[i]? with | some v => v | none => none)
          (rollingMedianAt window i predicted))
    .ok ⟨addColName t1.cols PREDICTED_HEART_RATE,
      setColZip PREDICTED_HEART_RATE t1.rows predDetrended⟩
  else .error "halflife must satisfy: halflife > 0"

/-- `scipy.stats.linregress` restricted to what the source consumes:
ordinary-least-squares slope and intercept.  On a degenerate sample
(scipy yields NaN or raises) both are modelled as 0. -/
structure LinFit where
  slope : ℚ
  intercept : ℚ
deriving DecidableEq

def linregress (pts : List (ℚ × ℚ)) : LinFit :=
  let n : ℚ := pts.length
  let sx := (pts.map Prod.fst).sum
  let sy := (pts.map Prod.snd).sum
  let sxx := (pts.map (fun p => p.1 * p.1)).sum
  let sxy := (pts.map (fun p => p.1 * p.2)).sum
  let den := n * sxx - sx * sx
  let slope := if den = 0 then 0 else (n * sxy - sx * sy) / den
  ⟨slope, if n = 0 then 0 else (sy - slope * sx) / n⟩

/-- `measure_initial_delay(df, dt, col1, col2, n)` (source lines
120-124).  `score i` models the correlation
`df[col1].corr(df[col2].shift(freq=f'{i*dt}S'))`, whose value involves
square roots and is abstracted; the source sorts the `(lag, score)`
pairs by descending score (Python's sort is stable, so the earliest lag
wins ties) and returns `dt` times the best lag. -/
def measure_initial_delay (score : ℤ → ℚ) (dt : ℚ) (n : ℕ) : ℚ :=
  let correln := (List.range (2 * n + 1)).map
    (fun k => ((k : ℤ) - (n : ℤ), score ((k : ℤ) - (n : ℤ))))
  let sorted := List.insertionSort (fun p q => p.2 ≥ q.2) correln
  match sorted.head? with
  | some p => dt * (p.1 : ℚ)
  | none => 0

/-- The delayed power of source line 130: `df[POWER].shift(freq=...)`
aligned back onto the index — the value at time `τ` is the power of the
genuine row at `τ - delay`, when that time is in the index. -/
def delayedPowerAt (stats : TTable) (delay τ : ℚ) : Cell :=
  match lookupTime stats (τ - delay) with
  | some r => getCol r POWER
  | none => none

/-- `df.loc[:, (DELAYED_POWER, HEART_RATE)].dropna()` (source line 131)
as the list of regression points `(delayed power, heart rate)`. -/
def cleanPairs (stats : TTable) (delay : ℚ) : List (ℚ × ℚ) :=
  stats.filterMap (fun p =>
    match delayedPowerAt stats delay p.1, getCol p.2 HEART_RATE with
    | some x, some y => some (x, y)
    | _, _ => none)

/-- `measure_initial_scaling(df)` (source lines 127-134): measure the
initial delay; raise the domain failure when it is negative; otherwise
regress heart rate on the power shifted forward by the delay and return
`(slope, intercept, delay)`. -/
def measure_initial_scaling (score : ℤ → ℚ) (stats : TTable) :
    Except PowerException (ℚ × ℚ × ℚ) :=
  let delay := measure_initial_delay score (median_dt stats) 20
  if delay < 0 then .error ⟨"Cannot estimate delay (insufficient data?)"⟩
  else
    let f := linregress (cleanPairs stats delay)
    .ok (f.slope, f.intercept, delay)

/-! ## Concrete fixtures used by witnesses and counterexamples -/

/-- A fitted parameter set with a negative wind speed. -/
def mWind : PowerModel := { powerModelDefault with wind_speed := -2, wind_heading := 190 }

/-- A one-row frame for the power estimate, with a cadence below 1. -/
def tPowerRow : Row :=
  [(DELTA_ENERGY, some (-10)), (LOSS, some 2), (DELTA_TIME, some 2), (CADENCE, some (1/2))]

def tPower : DTable := ⟨[DELTA_ENERGY, LOSS, DELTA_TIME, CADENCE], [tPowerRow]⟩

deriving instance DecidableEq for Except

/-- A one-segment frame whose speed column has a missing value. -/
def tDiff : DTable := ⟨[TIMESPAN_ID, SPEED], [[(TIMESPAN_ID, some 1), (SPEED, none)]]⟩

/-- A one-segment frame carrying every column `add_differentials` reads
(the squared speed is added by line 53 itself), with a missing speed, so
the real code runs the line-57 check on present columns and reaches the
line-72 raise. -/
def tDiffFull : DTable :=
  ⟨[TIMESPAN_ID, DISTANCE, ELEVATION, SPEED, LATITUDE, LONGITUDE],
   [[(TIMESPAN_ID, some 1), (DISTANCE, some 0), (ELEVATION, some 100),
     (SPEED, none), (LATITUDE, some 50), (LONGITUDE, some 0)]]⟩

/-- A one-row frame carrying exactly the columns line 78 reads, so the
real `add_energy_budget` completes its in-place assignment. -/
def tEnergy : DTable :=
  ⟨[DELTA_SPEED_2, DELTA_ELEVATION],
   [[(DELTA_SPEED_2, some 2), (DELTA_ELEVATION, some 1)]]⟩

/-- A two-segment frame with complete speed data. -/
def tTwoSeg : DTable := ⟨[TIMESPAN_ID, SPEED],
  [[(TIMESPAN_ID, some 1), (SPEED, some 1)],
   [(TIMESPAN_ID, some 1), (SPEED, some 2)],
   [(TIMESPAN_ID, some 2), (SPEED, some 5)],
   [(TIMESPAN_ID, some 2), (SPEED, some 6)]]⟩

/-- A lag score with a unique maximum at lag 0. -/
def scoreZero : ℤ → ℚ := fun i => if i = 0 then 1 else 0

/-- A two-row frame with power and heart rate present. -/
def sHR : TTable :=
  [(0, [(POWER, some 1), (HEART_RATE, some 2)]),
   (1, [(POWER, some 2), (HEART_RATE, some 3)])]

/-- Two genuine samples at times 0 and 2, resampled at step 1. -/
def sRS : TTable := [(0, [(SPEED, some 1)]), (2, [(SPEED, some 3)])]

/-! ## Theorems -/

/-- Python `%` by a positive divisor is nonnegative. -/
theorem pymod_nonneg (x y : ℚ) (hy : 0 < y) : 0 ≤ pymod x y := by
  unfold pymod
  have h := Int.floor_le (x / y)
  have h2 : y * ((⌊x / y⌋ : ℤ) : ℚ) ≤ y * (x / y) := mul_le_mul_of_nonneg_left h hy.le
  have h3 : y * (x / y) = x := by field_simp
  linarith

/-- Python `%` by a positive divisor is below the divisor. -/
theorem pymod_lt (x y : ℚ) (hy : 0 < y) : pymod x y < y := by
  unfold pymod
  have h := Int.lt_floor_add_one (x / y)
  have h2 : y * (x / y) < y * (((⌊x / y⌋ : ℤ) : ℚ) + 1) := mul_lt_mul_of_pos_left h hy
  have h3 : y * (x / y) = x := by field_simp
  rw [mul_add, mul_one] at h2
  linarith

/-- Reading back the assigned column. -/
theorem getCol_setCol_self (r : Row) (c : String) (v : Cell) :
    getCol (setCol r c v) c = v := by
  induction r with
  | nil => simp [setCol, getCol]
  | cons p ps ih =>
    by_cases h : p.1 = c
    · simp [setCol, getCol, h]
    · simp [setCol, getCol, h, ih]

theorem getCol_setCol_ne (r : Row) (c c' : String) (v : Cell) (h : c' ≠ c) :
    getCol (setCol r c v) c' = getCol r c' := by
  induction r with
  | nil => simp [setCol, getCol, Ne.symm h]
  | cons p ps ih =>
    by_cases hp : p.1 = c
    · simp [setCol, getCol, hp, Ne.symm h]
    · simp [setCol, getCol, hp, ih]

theorem getCol_setColZip (c c' : String) (h : c' ≠ c) :
    ∀ (rows : List Row) (es : List Cell) (i : ℕ),
      ((setColZip c rows es)[i]?).map (fun r => getCol r c') =
        (rows[i]?).map (fun r => getCol r c') := by
  intro rows
  induction rows with
  | nil => intro es i; rfl
  | cons r rs ih =>
    intro es i
    cases es with
    | nil => rfl
    | cons v vs =>
      cases i with
      | zero => simp [setColZip, getCol_setCol_ne _ _ _ _ h]
      | succ n => simpa [setColZip] using ih vs n

theorem cadenceBelow1_setCol (r : Row) (c : String) (v : Cell) (h : c ≠ CADENCE) :
    cadenceBelow1 (setCol r c v) = cadenceBelow1 r := by
  unfold cadenceBelow1
  rw [getCol_setCol_ne _ _ _ _ (fun hh => h hh.symm)]

theorem mem_addColName (cols : List String) (c c' : String) (h : c ≠ c') :
    (c ∈ addColName cols c') ↔ c ∈ cols := by
  unfold addColName
  by_cases hm : c' ∈ cols
  · simp [hm]
  · simp [hm, h]

/-- C1: in every table produced by `add_power_estimate`, the power cell
of every row is present and never negative; it is exactly zero at every
row whose cadence column is present with cadence below 1, and exactly
zero at every row where the raw quotient
`(delta-energy + loss) / delta-time` is missing. -/
theorem add_power_estimate_spec (t : DTable) (i : ℕ) (r : Row)
    (hin : t.rows[i]? = some r) :
    ∃ p : ℚ,
      ((add_power_estimate t).rows[i]?).map (fun s => getCol s POWER) = some (some p) ∧
      0 ≤ p ∧
      (CADENCE ∈ t.cols → ∀ c : ℚ, getCol r CADENCE = some c → c < 1 → p = 0) ∧
      (rawPower r = none → p = 0) := by
  have hPE : POWER ≠ ENERGY := by decide
  have hPC : POWER ≠ CADENCE := by decide
  -- the row after line 103
  have hraw : ((powerRaw t).rows)[i]? = some (setCol r POWER (rawPower r)) := by
    rw [powerRaw, setColumn]
    simp [List.getElem?_map, hin]
  -- the row after line 104
  have hclip : ((powerClip (powerRaw t)).rows)[i]?
      = some (setCol (setCol r POWER (rawPower r)) POWER
          ((rawPower r).map (fun x => max x 0))) := by
    rw [powerClip, mapColumn]
    simp [List.getElem?_map, hraw, getCol_setCol_self]
  have hcadcols : (CADENCE ∈ (powerClip (powerRaw t)).cols) ↔ CADENCE ∈ t.cols := by
    simp [powerClip, powerRaw, mapColumn, setColumn,
      mem_addColName _ CADENCE POWER (by decide)]
  -- the power cell after line 105
  have hcadrow : cadenceBelow1 (setCol (setCol r POWER (rawPower r)) POWER
      ((rawPower r).map (fun x => max x 0))) = cadenceBelow1 r := by
    rw [cadenceBelow1_setCol _ _ _ hPC, cadenceBelow1_setCol _ _ _ hPC]
  have hcad : ((powerCadence (powerClip (powerRaw t))).rows[i]?).map (fun s => getCol s POWER)
      = some (if CADENCE ∈ t.cols ∧ cadenceBelow1 r then some 0
          else (rawPower r).map (fun x => max x 0)) := by
    rw [powerCadence]
    by_cases hc : CADENCE ∈ t.cols
    · rw [if_pos (hcadcols.mpr hc)]
      simp only [List.getElem?_map, hclip, Option.map_some']
      rw [hcadrow]
      by_cases hb : cadenceBelow1 r
      · simp [hb, hc, getCol_setCol_self]
      · simp [hb, hc, getCol_setCol_self]
    · rw [if_neg (fun hh => hc (hcadcols.mp hh))]
      simp only [hclip, Option.map_some']
      simp [hc, getCol_setCol_self]
  -- the power cell after line 106
  obtain ⟨r3, hr3, hr3p⟩ : ∃ r3, (powerCadence (powerClip (powerRaw t))).rows[i]? = some r3 ∧
      getCol r3 POWER = (if CADENCE ∈ t.cols ∧ cadenceBelow1 r then some 0
          else (rawPower r).map (fun x => max x 0)) := by
    cases hh : (powerCadence (powerClip (powerRaw t))).rows[i]? with
    | none => rw [hh] at hcad; simp at hcad
    | some s => rw [hh] at hcad; simp at hcad; exact ⟨s, rfl, hcad⟩
  have hfill : ((powerFillNa (powerCadence (powerClip (powerRaw t)))).rows[i]?).map
        (fun s => getCol s POWER)
      = some (if getCol r3 POWER = none then some 0 else getCol r3 POWER) := by
    rw [powerFillNa]
    simp only [List.getElem?_map, hr3, Option.map_some']
    by_cases hn : getCol r3 POWER = none
    · simp [hn, getCol_setCol_self]
    · simp [hn]
  -- lines 107-109 do not touch the power column
  have henergy : ((add_power_estimate t).rows[i]?).map (fun s => getCol s POWER)
      = ((powerFillNa (powerCadence (powerClip (powerRaw t)))).rows[i]?).map
          (fun s => getCol s POWER) := by
    rw [add_power_estimate, powerEnergy]
    cases hrows : (powerFillNa (powerCadence (powerClip (powerRaw t)))).rows with
    | nil => simp [hrows]
    | cons r0 rest =>
      cases i with
      | zero => simp [hrows, getCol_setCol_ne _ _ _ _ hPE]
      | succ n =>
        simp only [hrows, List.getElem?_cons_succ]
        exact getCol_setColZip ENERGY POWER hPE rest _ n
  rw [hfill, hr3p] at henergy
  -- case analysis on the final value
  by_cases hcb : CADENCE ∈ t.cols ∧ cadenceBelow1 r
  · refine ⟨0, ?_, le_refl 0, fun _ _ _ _ => rfl, fun _ => rfl⟩
    rw [henergy]
    simp [hcb]
  · cases hq : rawPower r with
    | none =>
      refine ⟨0, ?_, le_refl 0, ?_, fun _ => rfl⟩
      · rw [henergy]; simp [hcb, hq]
      · intro hc c hgc hlt
        exact absurd ⟨hc, by unfold cadenceBelow1; rw [hgc]; simp [hlt]⟩ hcb
    | some v =>
      refine ⟨max v 0, ?_, le_max_right v 0, ?_, ?_⟩
      · rw [henergy]; simp [hcb, hq]
      · intro hc c hgc hlt
        exact absurd ⟨hc, by unfold cadenceBelow1; rw [hgc]; simp [hlt]⟩ hcb
      · intro hn; exact absurd hn (by simp)

/-- Witness for C1 at the one-row fixture. -/
theorem add_power_estimate_check :
    ∃ p : ℚ,
      ((add_power_estimate tPower).rows[0]?).map (fun s => getCol s POWER) = some (some p) ∧
      0 ≤ p ∧
      (CADENCE ∈ tPower.cols → ∀ c : ℚ, getCol tPowerRow CADENCE = some c → c < 1 → p = 0) ∧
      (rawPower tPowerRow = none → p = 0) :=
  add_power_estimate_spec tPower 0 tPowerRow (by rfl)

/-- C2: the value `(a² + a·b + b²)/3` computed by the differentiator for
a pair of consecutive speed samples (source line 63, `avgSpeed2`) equals
the exact time-integral mean of the square of a speed varying linearly
from `a` to `b` over the interval, `∫ t in 0..1, ((1-t)·a + t·b)² dt`,
for all speeds `a, b ≥ 0`. -/
theorem avg_speed_squared_integral (a b : ℚ) (ha : 0 ≤ a) (hb : 0 ≤ b) :
    ((avgSpeed2 a b : ℚ) : ℝ) = ∫ t in (0:ℝ)..1, ((1 - t) * (a : ℝ) + t * (b : ℝ)) ^ 2 := by
  have hfun : (fun t : ℝ => ((1 - t) * (a : ℝ) + t * (b : ℝ)) ^ 2)
      = fun t : ℝ => ((a : ℝ) ^ 2 + (2 * (a : ℝ) * (b : ℝ) - 2 * (a : ℝ) ^ 2) * t)
          + ((a : ℝ) ^ 2 - 2 * (a : ℝ) * (b : ℝ) + (b : ℝ) ^ 2) * t ^ 2 := by
    funext t; ring
  rw [hfun]
  have h1 : IntervalIntegrable
      (fun t : ℝ => (a : ℝ) ^ 2 + (2 * (a : ℝ) * (b : ℝ) - 2 * (a : ℝ) ^ 2) * t)
      MeasureTheory.volume 0 1 := (Continuous.intervalIntegrable (by continuity) 0 1)
  have h2 : IntervalIntegrable
      (fun t : ℝ => ((a : ℝ) ^ 2 - 2 * (a : ℝ) * (b : ℝ) + (b : ℝ) ^ 2) * t ^ 2)
      MeasureTheory.volume 0 1 := (Continuous.intervalIntegrable (by continuity) 0 1)
  rw [intervalIntegral.integral_add h1 h2]
  have h3 : IntervalIntegrable (fun _ : ℝ => (a : ℝ) ^ 2) MeasureTheory.volume 0 1 :=
    (Continuous.intervalIntegrable (by continuity) 0 1)
  have h4 : IntervalIntegrable
      (fun t : ℝ => (2 * (a : ℝ) * (b : ℝ) - 2 * (a : ℝ) ^ 2) * t)
      MeasureTheory.volume 0 1 := (Continuous.intervalIntegrable (by continuity) 0 1)
  rw [intervalIntegral.integral_add h3 h4, intervalIntegral.integral_const,
    intervalIntegral.integral_const_mul, intervalIntegral.integral_const_mul,
    integral_id, integral_pow]
  simp only [avgSpeed2, smul_eq_mul]
  push_cast
  ring

/-- Witness for C2 at `a = 1`, `b = 2`. -/
theorem avg_speed_squared_integral_check :
    (0:ℚ) ≤ 1 ∧ (0:ℚ) ≤ 2 ∧
    ((avgSpeed2 1 2 : ℚ) : ℝ) = ∫ t in (0:ℝ)..1, ((1 - t) * ((1:ℚ) : ℝ) + t * ((2:ℚ) : ℝ)) ^ 2 :=
  ⟨by norm_num, by norm_num, avg_speed_squared_integral 1 2 (by norm_num) (by norm_num)⟩

/-- C3: the delay reparameterization of `fit_power`: for every internal
delay `d` (zero and negative included) the backward map yields
`|d| + MIN_DELAY`, always at least `MIN_DELAY`; backward after forward
is the identity on external delays `≥ MIN_DELAY`; forward after
backward is the identity on nonnegative internal delays; a keyword
dictionary without a delay entry passes through unchanged. -/
theorem delay_reparam_spec :
    (∀ d : ℚ, backwards (some d) = some (|d| + MIN_DELAY) ∧
      ∀ e : ℚ, backwards (some d) = some e → MIN_DELAY ≤ e) ∧
    (∀ x : ℚ, MIN_DELAY ≤ x → backwards (forwards (some x)) = some x) ∧
    (∀ d : ℚ, 0 ≤ d → forwards (backwards (some d)) = some d) ∧
    forwards none = none ∧ backwards none = none := by
  refine ⟨fun d => ⟨rfl, ?_⟩, fun x hx => ?_, fun d hd => ?_, rfl, rfl⟩
  · intro e he
    simp only [backwards, Option.map_some', Option.some.injEq] at he
    have := abs_nonneg d
    rw [← he]
    unfold MIN_DELAY
    linarith
  · simp only [forwards, backwards, Option.map_some', Option.some.injEq, MIN_DELAY]
    have hx1 : (1:ℚ) ≤ x := hx
    rw [abs_of_nonneg (by linarith : (0:ℚ) ≤ x - 1)]
    · ring
  · simp only [forwards, backwards, Option.map_some', Option.some.injEq, MIN_DELAY]
    have h1 : |d| + 1 - 1 = |d| := by ring
    rw [h1, abs_of_nonneg hd]

/-- Witness for C3 at internal delay `-3`, external delay `5`, internal
delay `2`. -/
theorem delay_reparam_check :
    backwards (some (-3)) = some 4 ∧
    backwards (forwards (some 5)) = some 5 ∧
    forwards (backwards (some 2)) = some 2 := by
  refine ⟨?_, delay_reparam_spec.2.1 5 (by norm_num [MIN_DELAY]),
    delay_reparam_spec.2.2.1 2 (by norm_num)⟩
  have h := (delay_reparam_spec.1 (-3)).1
  norm_num [MIN_DELAY] at h
  exact h

/-- C4: for every parameter set the external fitting primitive may have
produced, the wind normalization at the end of `fit_power` yields a wind
speed `≥ 0` and a wind heading in `[0, 360)`; when the fitted wind speed
was negative it is negated and the heading rotated by 180 degrees before
the final modulo-360 reduction. -/
theorem fit_power_wind_spec (model : PowerModel) :
    0 ≤ (fit_power_wind_fix model).wind_speed ∧
    0 ≤ (fit_power_wind_fix model).wind_heading ∧
    (fit_power_wind_fix model).wind_heading < 360 ∧
    (model.wind_speed < 0 →
      (fit_power_wind_fix model).wind_speed = -model.wind_speed ∧
      (fit_power_wind_fix model).wind_heading = pymod (model.wind_heading + 180) 360) := by
  unfold fit_power_wind_fix
  by_cases h : model.wind_speed < 0
  · rw [if_pos h]
    exact ⟨abs_nonneg _, pymod_nonneg _ _ (by norm_num), pymod_lt _ _ (by norm_num),
      fun _ => ⟨abs_of_neg h, rfl⟩⟩
  · rw [if_neg h]
    exact ⟨le_of_not_lt h, pymod_nonneg _ _ (by norm_num), pymod_lt _ _ (by norm_num),
      fun hc => absurd hc h⟩

/-- Witness for C4 at a fitted model with wind speed `-2` and heading
`190`. -/
theorem fit_power_wind_check :
    (fit_power_wind_fix mWind).wind_speed = -mWind.wind_speed ∧
    (fit_power_wind_fix mWind).wind_heading = pymod (mWind.wind_heading + 180) 360 :=
  (fit_power_wind_spec mWind).2.2.2 (by norm_num [mWind])

/-- Assigning one column leaves every other column of every row unchanged. -/
theorem getCol_map_setCol (rows : List Row) (c c' : String) (f : Row → Cell)
    (h : c' ≠ c) (i : ℕ) :
    ((rows.map (fun r => setCol r c (f r)))[i]?).map (fun s => getCol s c')
      = (rows[i]?).map (fun s => getCol s c') := by
  rw [List.getElem?_map]
  cases rows[i]? <;> simp [getCol_setCol_ne _ _ _ _ h]

/-- A masked assignment of one column leaves other columns unchanged. -/
theorem getCol_map_setCol_if (rows : List Row) (c c' : String) (P : Row → Prop)
    [DecidablePred P] (v : Cell) (h : c' ≠ c) (i : ℕ) :
    ((rows.map (fun r => if P r then setCol r c v else r))[i]?).map (fun s => getCol s c')
      = (rows[i]?).map (fun s => getCol s c') := by
  rw [List.getElem?_map]
  cases rows[i]? with
  | none => rfl
  | some s =>
    by_cases hp : P s <;> simp [hp, getCol_setCol_ne _ _ _ _ h]

/-- The energy assignment (lines 107-109) leaves other columns unchanged. -/
theorem getCol_powerEnergy (t : DTable) (c : String) (h : c ≠ ENERGY) (i : ℕ) :
    ((powerEnergy t).rows[i]?).map (fun s => getCol s c)
      = (t.rows[i]?).map (fun s => getCol s c) := by
  rw [powerEnergy]
  cases hrows : t.rows with
  | nil => simp [hrows]
  | cons r0 rest =>
    cases i with
    | zero => simp [hrows, getCol_setCol_ne _ _ _ _ h]
    | succ n =>
      simp only [hrows, List.getElem?_cons_succ]
      exact getCol_setColZip ENERGY c h rest _ n

/-- Line 105 touches only the power column. -/
theorem getCol_powerCadence (t : DTable) (c : String) (h : c ≠ POWER) (i : ℕ) :
    ((powerCadence t).rows[i]?).map (fun s => getCol s c)
      = (t.rows[i]?).map (fun s => getCol s c) := by
  rw [powerCadence]
  by_cases hm : CADENCE ∈ t.cols
  · rw [if_pos hm]
    exact getCol_map_setCol_if t.rows _ _ _ _ h i
  · rw [if_neg hm]

/-- Line 106 touches only the power column. -/
theorem getCol_powerFillNa (t : DTable) (c : String) (h : c ≠ POWER) (i : ℕ) :
    ((powerFillNa t).rows[i]?).map (fun s => getCol s c)
      = (t.rows[i]?).map (fun s => getCol s c) := by
  rw [powerFillNa]
  exact getCol_map_setCol_if t.rows _ _ _ _ h i

/-- Line 104 touches only the power column. -/
theorem getCol_powerClip (t : DTable) (c : String) (h : c ≠ POWER) (i : ℕ) :
    ((powerClip t).rows[i]?).map (fun s => getCol s c)
      = (t.rows[i]?).map (fun s => getCol s c) := by
  rw [powerClip, mapColumn]
  exact getCol_map_setCol t.rows _ _ _ h i

/-- Line 103 touches only the power column. -/
theorem getCol_powerRaw (t : DTable) (c : String) (h : c ≠ POWER) (i : ℕ) :
    ((powerRaw t).rows[i]?).map (fun s => getCol s c)
      = (t.rows[i]?).map (fun s => getCol s c) := by
  rw [powerRaw, setColumn]
  exact getCol_map_setCol t.rows _ _ _ h i

/-- C9 (amended): every evaluation stage is a deterministic function of
table and parameters that augments the table — the in-place stages
return the very frame they mutated, columns other than each stage's
assigned ones keep their values row for row, and `evaluate` is the
composition of the four stages; but the caller's input frame is mutated
in place, not left unchanged. -/
theorem evaluate_stages_spec :
    (∀ m g t, add_energy_budget_state m g t = add_energy_budget m g t) ∧
    (∀ cda crr p t, add_loss_estimate_state cda crr p t = add_loss_estimate cda crr p t) ∧
    (∀ t, add_power_estimate_state t = add_power_estimate t) ∧
    (∀ m g t (c : String), c ≠ DELTA_ENERGY → ∀ i : ℕ,
      ((add_energy_budget m g t).rows[i]?).map (fun s => getCol s c)
        = (t.rows[i]?).map (fun s => getCol s c)) ∧
    (∀ cda crr p t (c : String), c ≠ LOSS → ∀ i : ℕ,
      ((add_loss_estimate cda crr p t).rows[i]?).map (fun s => getCol s c)
        = (t.rows[i]?).map (fun s => getCol s c)) ∧
    (∀ t (c : String), c ≠ POWER → c ≠ ENERGY → ∀ i : ℕ,
      ((add_power_estimate t).rows[i]?).map (fun s => getCol s c)
        = (t.rows[i]?).map (fun s => getCol s c)) ∧
    (∀ cosd atan2 model t,
      evaluate cosd atan2 model t =
        (add_air_speed cosd atan2 model.wind_speed model.wind_heading
          (add_energy_budget model.m (9.8 : ℚ) t)).map
          (fun t2 => add_power_estimate (add_loss_estimate model.cda model.crr (1.225 : ℚ) t2))) ∧
    (∀ cosd model t,
      evaluate_state cosd model t
        = add_air_speed_state cosd model.wind_speed model.wind_heading
            (add_energy_budget model.m (9.8 : ℚ) t)) := by
  refine ⟨fun _ _ _ => rfl, fun _ _ _ _ => rfl, fun _ => rfl, ?_, ?_, ?_, ?_, fun _ _ _ => rfl⟩
  · intro m g t c hc i
    rw [add_energy_budget, setColumn]
    exact getCol_map_setCol t.rows _ _ _ hc i
  · intro cda crr p t c hc i
    rw [add_loss_estimate, setColumn]
    exact getCol_map_setCol t.rows _ _ _ hc i
  · intro t c hP hE i
    rw [add_power_estimate, getCol_powerEnergy _ _ hE, getCol_powerFillNa _ _ hP,
      getCol_powerCadence _ _ hP, getCol_powerClip _ _ hP, getCol_powerRaw _ _ hP]
  · intro cosd atan2 model t
    cases h : add_air_speed cosd atan2 model.wind_speed model.wind_heading
        (add_energy_budget model.m (9.8 : ℚ) t) with
    | error e => simp [evaluate, h, Except.map]
    | ok t2 => simp [evaluate, h, Except.map]

/-- Counterexample to C9 as stated: on a frame carrying exactly the
columns line 78 reads, `add_energy_budget` assigns the delta-energy
column in place and returns the very frame it mutated — the caller's
input table is not left unchanged and no fresh copy is returned. -/
theorem add_energy_budget_mutates_input :
    add_energy_budget_state 70 (49 / 5 : ℚ) tEnergy ≠ tEnergy ∧
    add_energy_budget_state 70 (49 / 5 : ℚ) tEnergy = add_energy_budget 70 (49 / 5 : ℚ) tEnergy := by
  exact ⟨by decide, rfl⟩

/-- Witness for the amended C9: the energy-budget stage leaves the
delta-time column of the fixture unchanged. -/
theorem evaluate_stages_check :
    ((add_energy_budget 70 (9.8 : ℚ) tPower).rows[0]?).map (fun s => getCol s DELTA_TIME)
      = (tPower.rows[0]?).map (fun s => getCol s DELTA_TIME) :=
  evaluate_stages_spec.2.2.2.1 70 (9.8 : ℚ) tPower DELTA_TIME (by decide) 0

/-- The usability test of source line 57 holds exactly when no required
column has a missing value in the span. -/
theorem segmentOk_iff (names : List String) (run : List Row) :
    segmentOk names run = true ↔ ¬ ∃ c ∈ names, ∃ r ∈ run, getCol r c = none := by
  rw [segmentOk, List.all_eq_true]
  constructor
  · intro h hex
    obtain ⟨c, hc, r, hr, hnone⟩ := hex
    have h2 := h c hc
    rw [List.all_eq_true] at h2
    have h3 := h2 r hr
    rw [hnone] at h3
    exact absurd h3 (by simp)
  · intro h c hc
    rw [List.all_eq_true]
    intro r hr
    cases hgc : getCol r c with
    | none => exact absurd ⟨c, hc, r, hr, hgc⟩ h
    | some v => simp

/-- `_add_differentials` raises exactly when the filtered span list is
empty. -/
theorem diff_error_iff (atan2 : ℚ → ℚ → ℚ) (speed : String)
    (names : List String) (t : DTable) :
    (∃ e, _add_differentials atan2 speed names t = .error e) ↔
      (((groupRuns (withSpeed2 speed t).rows).filter
          (fun run => (keyOf run).isSome)).filter (segmentOk names)).isEmpty = true := by
  cases hb : (((groupRuns (withSpeed2 speed t).rows).filter
      (fun run => (keyOf run).isSome)).filter (segmentOk names)).isEmpty
  · simp only [_add_differentials]
    rw [hb]
    simp
  · simp only [_add_differentials]
    rw [hb]
    simp

/-- C5 (amended): `_add_differentials` raises its domain failure iff
every timespan segment has a missing value in some required column (a
segment is usable — contributes rows — iff it has none); in the error
case the caller's table is changed only by the in-place addition of the
squared-speed column, which precedes the failure: it is not left fully
unchanged. -/
theorem add_differentials_skip_raise_spec (atan2 : ℚ → ℚ → ℚ) (speed : String)
    (names : List String) (t : DTable) :
    ((∃ e, _add_differentials atan2 speed names t = .error e) ↔
      ∀ run ∈ segmentsOf (_add_differentials_state speed t),
        ∃ c ∈ names, ∃ r ∈ run, getCol r c = none) ∧
    (∀ run ∈ segmentsOf (_add_differentials_state speed t),
      (segmentOk names run = true ↔ ¬ ∃ c ∈ names, ∃ r ∈ run, getCol r c = none)) ∧
    ((_add_differentials_state speed t).cols = addColName t.cols (_sqr speed)) ∧
    (∀ c : String, c ≠ _sqr speed → ∀ i : ℕ,
      ((_add_differentials_state speed t).rows[i]?).map (fun s => getCol s c)
        = (t.rows[i]?).map (fun s => getCol s c)) := by
  have hiter : ∀ run : List Row,
      ¬ (segmentOk names run = true) ↔ ∃ c ∈ names, ∃ r ∈ run, getCol r c = none := by
    intro run
    rw [segmentOk_iff names run]
    exact not_not
  refine ⟨?_, fun run _ => segmentOk_iff names run, rfl, ?_⟩
  · rw [diff_error_iff]
    rw [List.isEmpty_iff, List.filter_eq_nil_iff]
    unfold segmentsOf _add_differentials_state
    exact forall_congr' (fun run => imp_congr_right (fun _ => hiter run))
  · intro c hc i
    exact getCol_map_setCol t.rows _ _ _ hc i

/-- Counterexample to C5 as stated: on a frame carrying every required
column whose only segment has a missing speed, `add_differentials`
raises its domain failure — but the caller's table has been mutated
(line 53 added the squared-speed column before the raise), so the table
is not left unchanged in the error case. -/
theorem add_differentials_unchanged_counterexample :
    add_differentials (fun _ _ => 0) tDiffFull
      = .error ⟨"Missing data - found no spans without NANs"⟩ ∧
    add_differentials_state tDiffFull ≠ tDiffFull := by
  decide

/-- Witness for the amended C5 at the concrete fixture. -/
theorem add_differentials_skip_raise_check :
    ∃ e, _add_differentials (fun _ _ => 0) SPEED [SPEED] tDiff = .error e :=
  (add_differentials_skip_raise_spec (fun _ _ => 0) SPEED [SPEED] tDiff).1.mpr (by decide)

/-- The delta name mark is injective. -/
theorem _d_inj (x y : String) (h : _d x = _d y) : x = y := by
  unfold _d at h
  have h2 := congrArg String.data h
  rw [String.data_append, String.data_append] at h2
  exact String.ext (List.append_cancel_left h2)

/-- A delta name is never an average name. -/
theorem _d_ne_avg (x y : String) : _d x ≠ _avg y := by
  intro h
  unfold _d _avg at h
  have h2 := congrArg String.data h
  rw [String.data_append, String.data_append] at h2
  have hd : "delta ".data = ['d', 'e', 'l', 't', 'a', ' '] := rfl
  have ha : "avg ".data = ['a', 'v', 'g', ' '] := rfl
  rw [hd, ha] at h2
  simp at h2

/-- The heading column is never an average name. -/
theorem heading_ne_avg (y : String) : HEADING ≠ _avg y := by
  intro h
  unfold _avg at h
  have h2 := congrArg String.data h
  rw [String.data_append] at h2
  have hh : HEADING.data = ['h', 'e', 'a', 'd', 'i', 'n', 'g'] := rfl
  have ha : "avg ".data = ['a', 'v', 'g', ' '] := rfl
  rw [hh, ha] at h2
  simp at h2

/-- Lookup in a concatenated row. -/
theorem getCol_append (r1 r2 : Row) (c : String) :
    getCol (r1 ++ r2) c = if hasKey r1 c then getCol r1 c else getCol r2 c := by
  induction r1 with
  | nil => simp [hasKey, getCol]
  | cons p ps ih =>
    by_cases h : p.1 = c
    · simp [getCol, hasKey, h]
    · have hk : hasKey (p :: ps) c = hasKey ps c := by simp [hasKey, h]
      simp only [List.cons_append, getCol, if_neg h, hk]
      exact ih

/-- Lookup hits the left part when it has the key. -/
theorem getCol_append_left (r1 r2 : Row) (c : String) (h : hasKey r1 c = true) :
    getCol (r1 ++ r2) c = getCol r1 c := by
  rw [getCol_append, h]
  simp

/-- Lookup falls through when the left part lacks the key. -/
theorem getCol_append_right (r1 r2 : Row) (c : String) (h : hasKey r1 c = false) :
    getCol (r1 ++ r2) c = getCol r2 c := by
  rw [getCol_append, h]
  simp

/-- A row with no binding for the key. -/
theorem hasKey_eq_false (r : Row) (k : String) (h : ∀ p ∈ r, p.1 ≠ k) :
    hasKey r k = false := by
  unfold hasKey
  rw [List.any_eq_false]
  intro p hp
  simpa using h p hp

/-- Dropped columns leave no binding. -/
theorem hasKey_dropCols (r : Row) (cs : List String) (c : String) (h : c ∈ cs) :
    hasKey (dropCols r cs) c = false := by
  apply hasKey_eq_false
  intro p hp
  rw [dropCols, List.mem_filter] at hp
  intro hc
  exact (of_decide_eq_true hp.2) (hc ▸ h)

/-- Lookup in an all-missing assignment. -/
theorem getCol_const_none (cs : List String) (k : String) :
    getCol (cs.map (fun c => (c, (none : Cell)))) k = none := by
  induction cs with
  | nil => rfl
  | cons x xs ih => by_cases h : x = k <;> simp [getCol, h, ih]

/-- Lookup of a mapped key built by an injective mark. -/
theorem getCol_keyMap_mem (g : String → String) (f : String → Cell) (cs : List String)
    (c : String) (hinj : ∀ x y, g x = g y → x = y) (hc : c ∈ cs) :
    getCol (cs.map (fun x => (g x, f x))) (g c) = f c := by
  induction cs with
  | nil => cases hc
  | cons x xs ih =>
    by_cases h : g x = g c
    · rw [hinj x c h]
      simp [getCol]
    · have hm : c ∈ xs := by
        rcases List.mem_cons.mp hc with he | hm
        · exact absurd (congrArg g he.symm) h
        · exact hm
      simp only [List.map_cons, getCol, if_neg h]
      exact ih hm

/-- A mapped assoc list has no binding for a foreign key. -/
theorem getCol_keyMap_none (g : String → String) (f : String → Cell) (cs : List String)
    (k : String) (h : ∀ x ∈ cs, g x ≠ k) :
    hasKey (cs.map (fun x => (g x, f x))) k = false := by
  apply hasKey_eq_false
  intro p hp
  obtain ⟨x, hx, rfl⟩ := List.mem_map.mp hp
  exact h x hx

/-- The delta cell of a new-span row. -/
theorem getCol_newRowAt_d (atan2 : ℚ → ℚ → ℚ) (hh : Bool) (speed : String)
    (names : List String) (run : List Row) (i : ℕ) (c : String) (hc : c ∈ names) :
    getCol (newRowAt atan2 hh speed names run i) (_d c) = diffAt run c i := by
  unfold newRowAt
  have hkey : hasKey (names.map (fun x => (_d x, diffAt run x i))) (_d c) = true := by
    unfold hasKey
    rw [List.any_eq_true]
    exact ⟨(_d c, diffAt run c i), List.mem_map.mpr ⟨c, hc, rfl⟩, by simp⟩
  have hkey2 : hasKey ((names.map (fun x => (_d x, diffAt run x i))
      ++ if hh then []
         else [(HEADING, opt2 atan2 (diffAt run LONGITUDE i) (diffAt run LATITUDE i))])) (_d c)
      = true := by
    unfold hasKey at hkey ⊢
    rw [List.any_append, hkey, Bool.true_or]
  rw [getCol_append_left _ _ _ hkey2, getCol_append_left _ _ _ hkey]
  exact getCol_keyMap_mem _d (fun x => diffAt run x i) names c _d_inj hc

/-- The average-squared-speed cell of a new-span row. -/
theorem getCol_newRowAt_avg (atan2 : ℚ → ℚ → ℚ) (hh : Bool) (speed : String)
    (names : List String) (run : List Row) (i : ℕ) :
    getCol (newRowAt atan2 hh speed names run i) (_avg (_sqr speed)) = avgAt run speed i := by
  unfold newRowAt
  have hk1 : hasKey ((names.map (fun x => (_d x, diffAt run x i))
      ++ if hh then []
         else [(HEADING, opt2 atan2 (diffAt run LONGITUDE i) (diffAt run LATITUDE i))]))
      (_avg (_sqr speed)) = false := by
    apply hasKey_eq_false
    intro p hp
    rcases List.mem_append.mp hp with hp1 | hp2
    · obtain ⟨x, hx, rfl⟩ := List.mem_map.mp hp1
      exact _d_ne_avg x (_sqr speed)
    · cases hh with
      | true => simp at hp2
      | false =>
        simp only [if_neg (by decide : ¬ (false = true)), List.mem_singleton] at hp2
        rw [hp2]
        exact heading_ne_avg (_sqr speed)
  rw [getCol_append_right _ _ _ hk1]
  simp [getCol]

/-- Row `i` of a usable merged span. -/
theorem mergeRun_ok_getElem (atan2 : ℚ → ℚ → ℚ) (hh : Bool) (speed : String)
    (names : List String) (run : List Row)
    (hok : (keyOf run).isSome = true ∧ segmentOk names run = true)
    (i : ℕ) (r : Row) (hr : run[i]? = some r) :
    (mergeRun atan2 hh speed names run)[i]?
      = some (dropCols r (extraCols hh speed names) ++ newRowAt atan2 hh speed names run i) := by
  unfold mergeRun
  rw [if_pos hok, List.getElem?_map]
  have hi : i < run.length := by
    by_contra hlt
    rw [List.getElem?_eq_none (le_of_not_lt hlt)] at hr
    cases hr
  rw [List.getElem?_range hi]
  simp only [Option.map_some']
  rw [hr]

/-- Row `i` of a skipped merged span. -/
theorem mergeRun_skip_getElem (atan2 : ℚ → ℚ → ℚ) (hh : Bool) (speed : String)
    (names : List String) (run : List Row)
    (hnok : ¬ ((keyOf run).isSome = true ∧ segmentOk names run = true))
    (i : ℕ) (r : Row) (hr : run[i]? = some r) :
    (mergeRun atan2 hh speed names run)[i]?
      = some (dropCols r (extraCols hh speed names)
          ++ (extraCols hh speed names).map (fun c => (c, (none : Cell)))) := by
  unfold mergeRun
  rw [if_neg hnok, List.getElem?_map, hr]
  rfl

/-- Delta columns are new-span columns. -/
theorem d_mem_extraCols (hh : Bool) (speed : String) (names : List String)
    (c : String) (hc : c ∈ names) : _d c ∈ extraCols hh speed names := by
  unfold extraCols
  exact List.mem_append.mpr (Or.inl (List.mem_append.mpr (Or.inl (List.mem_map.mpr ⟨c, hc, rfl⟩))))

/-- The average-squared-speed column is a new-span column. -/
theorem avg_mem_extraCols (hh : Bool) (speed : String) (names : List String) :
    _avg (_sqr speed) ∈ extraCols hh speed names := by
  unfold extraCols
  exact List.mem_append.mpr (Or.inr (List.mem_singleton.mpr rfl))

/-- Merging an empty run yields no rows. -/
theorem mergeRun_nil (atan2 : ℚ → ℚ → ℚ) (hh : Bool) (speed : String)
    (names : List String) : mergeRun atan2 hh speed names [] = [] := by
  unfold mergeRun
  split <;> rfl

/-- Subtraction with a missing minuend is missing. -/
theorem optSub_none_left (b : Cell) : optSub none b = none := rfl

/-- C6: on every table with at least two timespan segments on which the
differentiator succeeds, the output is the concatenation of the
per-segment merges, the first row of every segment carries a missing
delta for every required column and a missing average squared speed, and
within a usable segment the delta at row `i ≥ 1` is exactly the
difference of rows `i` and `i-1` of that same segment — no first
difference spans a segment boundary. -/
theorem add_differentials_segment_local (atan2 : ℚ → ℚ → ℚ) (speed : String)
    (names : List String) (t : DTable) (out : DTable)
    (hseg : 2 ≤ (segmentsOf (_add_differentials_state speed t)).length)
    (hok : _add_differentials atan2 speed names t = .ok out) :
    out.rows = ((groupRuns (_add_differentials_state speed t).rows).map
        (mergeRun atan2 (decide (HEADING ∈ (_add_differentials_state speed t).cols))
          speed names)).flatten ∧
    ∀ run ∈ groupRuns (_add_differentials_state speed t).rows,
      (∀ c ∈ names,
        getAt (mergeRun atan2 (decide (HEADING ∈ (_add_differentials_state speed t).cols))
          speed names run) 0 (_d c) = none) ∧
      getAt (mergeRun atan2 (decide (HEADING ∈ (_add_differentials_state speed t).cols))
        speed names run) 0 (_avg (_sqr speed)) = none ∧
      ((keyOf run).isSome = true ∧ segmentOk names run = true →
        ∀ c ∈ names, ∀ i : ℕ, 1 ≤ i →
          getAt (mergeRun atan2 (decide (HEADING ∈ (_add_differentials_state speed t).cols))
            speed names run) i (_d c)
            = optSub (getAt run i c) (getAt run (i - 1) c)) := by
  unfold _add_differentials_state
  constructor
  · simp only [_add_differentials] at hok
    cases hb : (((groupRuns (withSpeed2 speed t).rows).filter
        (fun run => (keyOf run).isSome)).filter (segmentOk names)).isEmpty
    · rw [hb] at hok
      simp only [Bool.false_eq_true, if_false, Except.ok.injEq] at hok
      rw [← hok]
    · rw [hb] at hok
      simp at hok
  · intro run hrun
    set hh : Bool := decide (HEADING ∈ (withSpeed2 speed t).cols) with hhh
    refine ⟨?_, ?_, ?_⟩
    · intro c hc
      cases hr0 : run[0]? with
      | none =>
        have hnil : run = [] := List.eq_nil_of_length_eq_zero (by
          by_contra hlen
          rcases List.exists_mem_of_length_pos (Nat.pos_of_ne_zero hlen) with ⟨r, hr⟩
          have := List.getElem?_eq_none_iff.mp hr0
          omega)
        rw [hnil, mergeRun_nil]
        rfl
      | some r0 =>
        by_cases hok2 : (keyOf run).isSome = true ∧ segmentOk names run = true
        · simp only [getAt, mergeRun_ok_getElem atan2 hh speed names run hok2 0 r0 hr0]
          rw [getCol_append_right _ _ _
            (hasKey_dropCols _ _ _ (d_mem_extraCols hh speed names c hc))]
          rw [getCol_newRowAt_d atan2 hh speed names run 0 c hc]
          rfl
        · simp only [getAt, mergeRun_skip_getElem atan2 hh speed names run hok2 0 r0 hr0]
          rw [getCol_append_right _ _ _
            (hasKey_dropCols _ _ _ (d_mem_extraCols hh speed names c hc))]
          exact getCol_const_none _ _
    · cases hr0 : run[0]? with
      | none =>
        have hnil : run = [] := List.eq_nil_of_length_eq_zero (by
          by_contra hlen
          have := List.getElem?_eq_none_iff.mp hr0
          omega)
        rw [hnil, mergeRun_nil]
        rfl
      | some r0 =>
        by_cases hok2 : (keyOf run).isSome = true ∧ segmentOk names run = true
        · simp only [getAt, mergeRun_ok_getElem atan2 hh speed names run hok2 0 r0 hr0]
          rw [getCol_append_right _ _ _
            (hasKey_dropCols _ _ _ (avg_mem_extraCols hh speed names))]
          rw [getCol_newRowAt_avg atan2 hh speed names run 0]
          rfl
        · simp only [getAt, mergeRun_skip_getElem atan2 hh speed names run hok2 0 r0 hr0]
          rw [getCol_append_right _ _ _
            (hasKey_dropCols _ _ _ (avg_mem_extraCols hh speed names))]
          exact getCol_const_none _ _
    · intro hok2 c hc i hi
      cases hri : run[i]? with
      | none =>
        have hlen : run.length ≤ i := List.getElem?_eq_none_iff.mp hri
        have hm : (mergeRun atan2 hh speed names run)[i]? = none := by
          unfold mergeRun
          rw [if_pos hok2, List.getElem?_map, List.getElem?_eq_none]
          · rfl
          · rw [List.length_range]
            exact hlen
        simp only [getAt, hm, hri]
        rfl
      | some ri =>
        simp only [getAt, mergeRun_ok_getElem atan2 hh speed names run hok2 i ri hri]
        rw [getCol_append_right _ _ _
          (hasKey_dropCols _ _ _ (d_mem_extraCols hh speed names c hc))]
        rw [getCol_newRowAt_d atan2 hh speed names run i c hc]
        unfold diffAt
        rw [if_neg (by omega : ¬ i = 0)]
        rfl

/-- Witness for C6 at a concrete two-segment frame. -/
theorem add_differentials_segment_local_check :
    2 ≤ (segmentsOf (_add_differentials_state SPEED tTwoSeg)).length ∧
    ∀ run ∈ groupRuns (_add_differentials_state SPEED tTwoSeg).rows,
      getAt (mergeRun (fun _ _ => 0)
        (decide (HEADING ∈ (_add_differentials_state SPEED tTwoSeg).cols))
        SPEED [SPEED] run) 0 (_d SPEED) = none := by
  have hbool : (match _add_differentials (fun _ _ => 0) SPEED [SPEED] tTwoSeg with
      | .ok _ => true
      | .error _ => false) = true := by decide
  obtain ⟨out, hok⟩ : ∃ out,
      _add_differentials (fun _ _ => 0) SPEED [SPEED] tTwoSeg = .ok out := by
    cases h : _add_differentials (fun _ _ => 0) SPEED [SPEED] tTwoSeg with
    | ok v => exact ⟨v, rfl⟩
    | error e => rw [h] at hbool; cases hbool
  refine ⟨by decide, ?_⟩
  intro run hrun
  exact ((add_differentials_segment_local (fun _ _ => 0) SPEED [SPEED] tTwoSeg out
    (by decide) hok).2 run hrun).1 SPEED (by decide)

/-- C8: `measure_initial_scaling` raises the domain failure iff the
delay measured by `measure_initial_delay` is negative; otherwise it
shifts power forward by that delay, regresses heart rate on the delayed
power by ordinary least squares, and returns `(slope, intercept, delay)`. -/
theorem measure_initial_scaling_spec (score : ℤ → ℚ) (stats : TTable) :
    ((∃ e, measure_initial_scaling score stats = .error e) ↔
      measure_initial_delay score (median_dt stats) 20 < 0) ∧
    (0 ≤ measure_initial_delay score (median_dt stats) 20 →
      measure_initial_scaling score stats =
        .ok ((linregress (cleanPairs stats
                (measure_initial_delay score (median_dt stats) 20))).slope,
             (linregress (cleanPairs stats
                (measure_initial_delay score (median_dt stats) 20))).intercept,
             measure_initial_delay score (median_dt stats) 20)) := by
  unfold measure_initial_scaling
  by_cases h : measure_initial_delay score (median_dt stats) 20 < 0
  · rw [if_pos h]
    exact ⟨⟨fun _ => h, fun _ => ⟨_, rfl⟩⟩, fun h2 => absurd h (not_lt.mpr h2)⟩
  · rw [if_neg h]
    refine ⟨⟨fun he => ?_, fun h2 => absurd h2 h⟩, fun _ => rfl⟩
    obtain ⟨e, he⟩ := he
    cases he

/-- Witness for C8 at the concrete fixture (best lag 0). -/
theorem measure_initial_scaling_check :
    0 ≤ measure_initial_delay scoreZero (median_dt sHR) 20 ∧
    measure_initial_scaling scoreZero sHR =
      .ok ((linregress (cleanPairs sHR
              (measure_initial_delay scoreZero (median_dt sHR) 20))).slope,
           (linregress (cleanPairs sHR
              (measure_initial_delay scoreZero (median_dt sHR) 20))).intercept,
           measure_initial_delay scoreZero (median_dt sHR) 20) :=
  ⟨by decide, (measure_initial_scaling_spec scoreZero sHR).2 (by decide)⟩

/-- C10: `add_modeled_hr` succeeds exactly when the delay is strictly
positive (the exponential-lag smoothing validates its half-life) and
fails for every delay `≤ 0`; delay 0 is a value `measure_initial_delay`
can return and `measure_initial_scaling` accepts and passes through;
and any delay produced by the `MIN_DELAY` backward reparameterization
makes the failure branch unreachable. -/
theorem add_modeled_hr_delay_spec :
    (∀ (ewma : ℚ → List Cell → List Cell) (w : ℕ) (s ic d : ℚ) (t : DTable),
      d ≤ 0 → add_modeled_hr ewma w s ic d t = .error "halflife must satisfy: halflife > 0") ∧
    (∀ (ewma : ℚ → List Cell → List Cell) (w : ℕ) (s ic d : ℚ) (t : DTable),
      0 < d → ∃ out, add_modeled_hr ewma w s ic d t = .ok out) ∧
    (∃ (score : ℤ → ℚ) (stats : TTable) (sl ic : ℚ),
      measure_initial_delay score (median_dt stats) 20 = 0 ∧
      measure_initial_scaling score stats = .ok (sl, ic, 0)) ∧
    (∀ (ewma : ℚ → List Cell → List Cell) (w : ℕ) (s ic d e : ℚ) (t : DTable),
      backwards (some d) = some e → ∃ out, add_modeled_hr ewma w s ic e t = .ok out) := by
  refine ⟨fun ewma w s ic d t hd => ?_, fun ewma w s ic d t hd => ?_,
    ⟨scoreZero, sHR, 1, 1, by decide, by decide⟩, fun ewma w s ic d e t hbk => ?_⟩
  · unfold add_modeled_hr
    rw [if_neg (not_lt.mpr hd)]
  · unfold add_modeled_hr
    rw [if_pos hd]
    exact ⟨_, rfl⟩
  · simp only [backwards, Option.map_some', Option.some.injEq] at hbk
    have he : 0 < e := by
      rw [← hbk]
      unfold MIN_DELAY
      have := abs_nonneg d
      linarith
    unfold add_modeled_hr
    rw [if_pos he]
    exact ⟨_, rfl⟩

/-- Witness for C10 at delay 0 (failure) and delay 2 (success). -/
theorem add_modeled_hr_delay_check :
    add_modeled_hr (fun _ l => l) 3 1 0 0 tPower
      = .error "halflife must satisfy: halflife > 0" ∧
    (∃ out, add_modeled_hr (fun _ l => l) 3 1 0 2 tPower = .ok out) :=
  ⟨add_modeled_hr_delay_spec.1 (fun _ l => l) 3 1 0 0 tPower (le_refl 0),
   add_modeled_hr_delay_spec.2.1 (fun _ l => l) 3 1 0 2 tPower (by norm_num)⟩

/-- A row with no binding yields a missing lookup. -/
theorem getCol_eq_none_of_hasKey_false (r : Row) (k : String)
    (h : hasKey r k = false) : getCol r k = none := by
  induction r with
  | nil => rfl
  | cons p ps ih =>
    unfold hasKey at h ih
    rw [List.any_cons] at h
    rcases Bool.or_eq_false_iff.mp h with ⟨h1, h2⟩
    unfold getCol
    rw [if_neg (by simpa using h1)]
    exact ih h2

/-- A voided row (all cells set missing) yields missing lookups. -/
theorem getCol_voided (r : Row) (k : String) :
    getCol (r.map (fun q => (q.1, (none : Cell)))) k = none := by
  induction r with
  | nil => rfl
  | cons p ps ih =>
    unfold getCol
    by_cases h : p.1 = k <;> simp [h, ih]

/-- A successful index lookup comes from a genuine sample. -/
theorem lookupTime_mem (stats : TTable) (τ : ℚ) (r : Row)
    (h : lookupTime stats τ = some r) : (τ, r) ∈ stats := by
  unfold lookupTime at h
  cases hf : stats.find? (fun p => p.1 = τ) with
  | none => rw [hf] at h; cases h
  | some p =>
    rw [hf] at h
    cases p with
    | mk a b =>
      simp only [Option.map_some'] at h
      have hmem := List.mem_of_find?_eq_some hf
      have hpred : a = τ := by
        have := List.find?_some hf
        simpa using this
      have hbr : b = r := Option.some.inj h
      rw [← hbr, ← hpred]
      exact hmem

/-- Componentwise reading of a zipped position. -/
theorem getElem?_zip_eq (l1 : List ℚ) (l2 : List Cell) (j : ℕ) (a : ℚ) (b : Cell)
    (h : (l1.zip l2)[j]? = some (a, b)) : l1[j]? = some a ∧ l2[j]? = some b := by
  induction l1 generalizing l2 j with
  | nil => simp [List.zip] at h
  | cons x xs ih =>
    cases l2 with
    | nil => simp at h
    | cons y ys =>
      cases j with
      | zero =>
        simp only [List.zip_cons_cons, List.getElem?_cons_zero, Option.some.injEq] at h
        rw [Prod.mk.injEq] at h
        simp [h.1, h.2]
      | succ n =>
        simp only [List.zip_cons_cons, List.getElem?_cons_succ] at h ⊢
        exact ih ys n h

/-- A member of a prefix sits at a position below the cut. -/
theorem mem_take_getElem? (l : List (ℚ × Cell)) (i : ℕ) (q : ℚ × Cell)
    (h : q ∈ l.take i) : ∃ j, j < i ∧ l[j]? = some q := by
  obtain ⟨j, hj, hq⟩ := List.getElem_of_mem h
  rw [List.getElem_take] at hq
  have hji : j < i := lt_of_lt_of_le hj (by rw [List.length_take]; exact min_le_left _ _)
  have hjl : j < l.length := lt_of_lt_of_le hj (by rw [List.length_take]; exact min_le_right _ _)
  exact ⟨j, hji, by rw [List.getElem?_eq_getElem hjl, hq]⟩

/-- A member of a suffix sits at a position past the cut. -/
theorem mem_drop_getElem? (l : List (ℚ × Cell)) (n : ℕ) (q : ℚ × Cell)
    (h : q ∈ l.drop n) : ∃ j, n ≤ j ∧ l[j]? = some q := by
  obtain ⟨j, hj, hq⟩ := List.getElem_of_mem h
  rw [List.getElem_drop] at hq
  have hjl : n + j < l.length := by
    rw [List.length_drop] at hj
    omega
  exact ⟨n + j, by omega, by rw [List.getElem?_eq_getElem hjl, hq]⟩

/-- Positions of a sorted list are ordered. -/
theorem sorted_le_of_getElem? (l : List ℚ) (hs : l.Sorted (· ≤ ·)) (i j : ℕ) (hij : i ≤ j)
    (a b : ℚ) (ha : l[i]? = some a) (hb : l[j]? = some b) : a ≤ b := by
  rcases eq_or_lt_of_le hij with rfl | hlt
  · rw [ha] at hb
    cases hb
    exact le_refl a
  · have hjl : j < l.length := by
      by_contra hh
      rw [List.getElem?_eq_none (le_of_not_lt hh)] at hb
      cases hb
    have hil : i < l.length := lt_trans hlt hjl
    have hrel := List.pairwise_iff_getElem.mp hs i j hil hjl hlt
    rw [List.getElem?_eq_getElem hil] at ha
    rw [List.getElem?_eq_getElem hjl] at hb
    cases ha
    cases hb
    exact hrel

/-- The head is a member. -/
theorem mem_of_head?_eq_some {α : Type} (l : List α) (a : α) (h : l.head? = some a) :
    a ∈ l := by
  cases l with
  | nil => cases h
  | cons x xs =>
    have hxa : x = a := by simpa using h
    rw [← hxa]
    exact List.mem_cons_self x xs

/-- The last element is a member. -/
theorem mem_of_getLast?_eq_some {α : Type} (l : List α) (a : α) (h : l.getLast? = some a) :
    a ∈ l := by
  induction l with
  | nil => cases h
  | cons x xs ih =>
    cases hxs : xs with
    | nil =>
      rw [hxs] at h
      have : x = a := by simpa [List.getLast?] using h
      rw [this]
      exact List.mem_cons_self a []
    | cons y ys =>
      rw [hxs] at h
      rw [List.getLast?_cons_cons] at h
      rw [hxs] at ih
      exact List.mem_cons_of_mem x (ih h)

/-- A valid entry of the joined series is a genuine sample with a
present cell. -/
theorem valid_entry_stats (stats : TTable) (c : String) (ts : List ℚ) (j : ℕ)
    (tj : ℚ) (vj : ℚ)
    (hts : ts[j]? = some tj)
    (hvs : (bothSeries stats c ts)[j]? = some (some vj)) :
    ∃ p ∈ stats, p.1 = tj ∧ (getCol p.2 c).isSome = true := by
  unfold bothSeries at hvs
  rw [List.getElem?_map, hts] at hvs
  simp only [Option.map_some', Option.some.injEq] at hvs
  cases hl : lookupTime stats tj with
  | none => rw [hl] at hvs; cases hvs
  | some r =>
    rw [hl] at hvs
    have hvs2 : getCol r c = some vj := hvs
    exact ⟨(tj, r), lookupTime_mem stats tj r hl, rfl, by rw [hvs2]; rfl⟩

/-- Interpolation only ever produces a value at a position bracketed by
genuine samples with present cells. -/
theorem interpSeries_bracket (stats : TTable) (c : String) (ts : List ℚ)
    (hs : ts.Sorted (· ≤ ·)) (i : ℕ) (τ : ℚ) (hτ : ts[i]? = some τ) (v : ℚ)
    (hv : interpSeries ts (bothSeries stats c ts) i = some v) :
    ∃ p1 ∈ stats, ∃ p2 ∈ stats,
      p1.1 ≤ τ ∧ τ ≤ p2.1 ∧ (getCol p1.2 c).isSome = true ∧ (getCol p2.2 c).isSome = true := by
  unfold interpSeries at hv
  cases hvi : (bothSeries stats c ts)[i]? with
  | none => rw [hvi] at hv; cases hv
  | some cell =>
    rw [hvi] at hv
    cases cell with
    | some w =>
      obtain ⟨p, hp, hp1, hp2⟩ := valid_entry_stats stats c ts i τ w hτ hvi
      exact ⟨p, hp, p, hp, le_of_eq hp1, le_of_eq hp1.symm, hp2, hp2⟩
    | none =>
      rw [hτ] at hv
      cases hprev : prevValid ts (bothSeries stats c ts) i with
      | none => rw [hprev] at hv; cases hv
      | some pj =>
        cases hnext : nextValid ts (bothSeries stats c ts) i with
        | none => rw [hprev, hnext] at hv; cases hv
        | some pk =>
          -- extract the previous valid sample
          unfold prevValid at hprev
          obtain ⟨qj, hqjmem, hqjval⟩ := List.mem_filterMap.mp
            (mem_of_getLast?_eq_some _ _ hprev)
          obtain ⟨j, hji, hqj⟩ := mem_take_getElem? _ _ _ hqjmem
          obtain ⟨htj, hvj⟩ := getElem?_zip_eq ts (bothSeries stats c ts) j qj.1 qj.2 hqj
          obtain ⟨w, hw, hwpj⟩ := Option.map_eq_some'.mp
            (show Option.map (fun v => (qj.1, v)) qj.2 = some pj from hqjval)
          obtain ⟨p1, hp1mem, hp1t, hp1s⟩ := valid_entry_stats stats c ts j qj.1 w htj
            (by rw [hvj, hw])
          -- extract the next valid sample
          unfold nextValid at hnext
          obtain ⟨qk, hqkmem, hqkval⟩ := List.mem_filterMap.mp
            (mem_of_head?_eq_some _ _ hnext)
          obtain ⟨k, hki, hqk⟩ := mem_drop_getElem? _ _ _ hqkmem
          obtain ⟨htk, hvk⟩ := getElem?_zip_eq ts (bothSeries stats c ts) k qk.1 qk.2 hqk
          obtain ⟨wk, hwk, hwpk⟩ := Option.map_eq_some'.mp
            (show Option.map (fun v => (qk.1, v)) qk.2 = some pk from hqkval)
          obtain ⟨p2, hp2mem, hp2t, hp2s⟩ := valid_entry_stats stats c ts k qk.1 wk htk
            (by rw [hvk, hwk])
          refine ⟨p1, hp1mem, p2, hp2mem, ?_, ?_, hp1s, hp2s⟩
          · rw [hp1t]
            exact sorted_le_of_getElem? ts hs j i (le_of_lt hji) _ _ htj hτ
          · rw [hp2t]
            exact sorted_le_of_getElem? ts hs i k (by omega) _ _ hτ htk

/-- The executable sort sorts. -/
theorem isort_sorted (l : List ℚ) : (isort l).Sorted (· ≤ ·) :=
  List.sorted_insertionSort _ l

/-- The timespan step only passes rows through or voids them. -/
theorem mem_timespanFilter (stats : TTable) (wt kn : Bool) (rs : TTable)
    (τ : ℚ) (r : Row) (h : (τ, r) ∈ timespanFilter stats wt kn rs) :
    (τ, r) ∈ rs ∨ ∃ r0, (τ, r0) ∈ rs ∧ r = r0.map (fun q => (q.1, (none : Cell))) := by
  unfold timespanFilter at h
  cases wt with
  | false => exact Or.inl h
  | true =>
    simp only [if_pos rfl] at h
    cases kn with
    | false =>
      rw [if_neg (by decide : ¬ (false = true))] at h
      exact Or.inl (List.mem_filter.mp h).1
    | true =>
      rw [if_pos rfl] at h
      obtain ⟨p, hp, heq⟩ := List.mem_map.mp h
      by_cases hc : getCol p.2 TIMESPAN_ID ∈ stats.map (fun q => getCol q.2 TIMESPAN_ID)
      · rw [if_pos hc] at heq
        exact Or.inl (heq ▸ hp)
      · rw [if_neg hc] at heq
        have ht : p.1 = τ := congrArg Prod.fst heq
        have hr : r = p.2.map (fun q => (q.1, (none : Cell))) :=
          (congrArg Prod.snd heq).symm
        exact Or.inr ⟨p.2, by rw [← ht]; exact hp, hr⟩

/-- The synthesized time columns leave the data columns unchanged. -/
theorem mem_addTimeCols (rs : TTable) (τ : ℚ) (r : Row)
    (h : (τ, r) ∈ addTimeCols rs) :
    ∃ r0, (τ, r0) ∈ rs ∧ ∀ c, c ≠ TIME → c ≠ DELTA_TIME → getCol r c = getCol r0 c := by
  unfold addTimeCols at h
  obtain ⟨q, hq, heq⟩ := List.mem_map.mp h
  have hq1 := (List.of_mem_zip hq).1
  obtain ⟨p, hp, hpeq⟩ := List.mem_map.mp hq1
  have ht : τ = p.1 := by
    have h1 : q.1.1 = τ := congrArg Prod.fst heq
    have h2 : p.1 = q.1.1 := by rw [← hpeq]
    rw [← h1, h2]
  refine ⟨p.2, by rw [ht]; exact hp, ?_⟩
  intro c hcT hcD
  have hr : r = setCol q.1.2 DELTA_TIME q.2 := (congrArg Prod.snd heq).symm
  have hq12 : q.1.2 = setCol p.2 TIME (some p.1) := by rw [← hpeq]
  rw [hr, getCol_setCol_ne _ _ _ _ hcD, hq12, getCol_setCol_ne _ _ _ _ hcT]

/-- Every resampled row is the interpolation of the joined index at its
tick position. -/
theorem mem_resampleBase (stats : TTable) (statCols : List String)
    (start? finish? dt? : Option ℚ) (τ : ℚ) (r : Row)
    (h : (τ, r) ∈ resampleBase stats statCols start? finish? dt?) :
    ∃ i, (resampleIndex stats start? finish? dt?)[i]? = some τ ∧
      r = statCols.map (fun c => (c,
        interpSeries (resampleIndex stats start? finish? dt?)
          (bothSeries stats c (resampleIndex stats start? finish? dt?)) i)) := by
  unfold resampleBase at h
  obtain ⟨i, _, hbuild⟩ := List.mem_filterMap.mp h
  cases hts : (resampleIndex stats start? finish? dt?)[i]? with
  | none => rw [hts] at hbuild; cases hbuild
  | some τ2 =>
    rw [hts] at hbuild
    have hbuild2 : (if τ2 ∈ resampleTicks stats start? finish? dt? then
        some (τ2, statCols.map (fun c => (c,
          interpSeries (resampleIndex stats start? finish? dt?)
            (bothSeries stats c (resampleIndex stats start? finish? dt?)) i)))
      else none) = some (τ, r) := hbuild
    by_cases htick : τ2 ∈ resampleTicks stats start? finish? dt?
    · rw [if_pos htick] at hbuild2
      have h1 : τ2 = τ := congrArg Prod.fst (Option.some.inj hbuild2)
      have h2 : r = statCols.map (fun c => (c,
          interpSeries (resampleIndex stats start? finish? dt?)
            (bothSeries stats c (resampleIndex stats start? finish? dt?)) i)) :=
        (congrArg Prod.snd (Option.some.inj hbuild2)).symm
      exact ⟨i, by rw [hts, h1], h2⟩
    · rw [if_neg htick] at hbuild2
      cases hbuild2

/-- C7: the resampler never extrapolates — every output row carrying a
present value for a data column (other than the synthesized time
columns) is bracketed by genuine input samples with present values for
that column: one at or before and one at or after the tick's timestamp. -/
theorem linear_resample_no_extrapolation (stats : TTable) (statCols : List String)
    (start? finish? dt? : Option ℚ) (with_timestamp? : Option Bool) (keep_nan : Bool)
    (c : String) (hcT : c ≠ TIME) (hcD : c ≠ DELTA_TIME) (τ : ℚ) (r : Row)
    (hmem : (τ, r) ∈ linear_resample stats statCols start? finish? dt? with_timestamp? keep_nan)
    (v : ℚ) (hv : getCol r c = some v) :
    ∃ p1 ∈ stats, ∃ p2 ∈ stats, p1.1 ≤ τ ∧ τ ≤ p2.1 ∧
      (getCol p1.2 c).isSome = true ∧ (getCol p2.2 c).isSome = true := by
  unfold linear_resample at hmem
  rcases mem_timespanFilter _ _ _ _ _ _ hmem with hmem1 | ⟨r0, _, hvoid⟩
  · obtain ⟨r1, hmem2, hsame⟩ := mem_addTimeCols _ _ _ hmem1
    obtain ⟨i, hts, hrow⟩ := mem_resampleBase _ _ _ _ _ _ _ hmem2
    rw [hsame c hcT hcD, hrow] at hv
    by_cases hc : c ∈ statCols
    · have hget : getCol (statCols.map (fun x => (x,
          interpSeries (resampleIndex stats start? finish? dt?)
            (bothSeries stats x (resampleIndex stats start? finish? dt?)) i))) c
          = interpSeries (resampleIndex stats start? finish? dt?)
              (bothSeries stats c (resampleIndex stats start? finish? dt?)) i :=
        getCol_keyMap_mem (fun x => x) _ statCols c (fun _ _ hh => hh) hc
      rw [hget] at hv
      exact interpSeries_bracket stats c (resampleIndex stats start? finish? dt?)
        (isort_sorted _) i τ hts v hv
    · have hget : getCol (statCols.map (fun x => (x,
          interpSeries (resampleIndex stats start? finish? dt?)
            (bothSeries stats x (resampleIndex stats start? finish? dt?)) i))) c = none :=
        getCol_eq_none_of_hasKey_false _ _
          (getCol_keyMap_none (fun x => x) _ statCols c (fun x hx hh => hc (hh ▸ hx)))
      rw [hget] at hv
      cases hv
  · rw [hvoid, getCol_voided] at hv
    cases hv

/-- Witness for C7 at the interpolated middle tick of the fixture. -/
theorem linear_resample_no_extrapolation_check :
    (1, [(SPEED, some 2), (TIME, some 1), (DELTA_TIME, some 1)])
      ∈ linear_resample sRS [SPEED] none none (some 1) none true ∧
    ∃ p1 ∈ sRS, ∃ p2 ∈ sRS, p1.1 ≤ 1 ∧ (1 : ℚ) ≤ p2.1 ∧
      (getCol p1.2 SPEED).isSome = true ∧ (getCol p2.2 SPEED).isSome = true :=
  ⟨by decide,
   linear_resample_no_extrapolation sRS [SPEED] none none (some 1) none true SPEED
     (by decide) (by decide) 1 [(SPEED, some 2), (TIME, some 1), (DELTA_TIME, some 1)]
     (by decide) 2 (by decide)⟩

end Choochoo
